import Mathlib

/-!
Verification development for the hive-scout-bee package.

The package has two components:
* a signature extractor (src/extractor/SignatureExtractor.ts, two revisions)
  that turns a window of RDF quads into a numeric StreamSignature, and
* the HiveScoutBee approach selector (src/HiveScoutBee.ts) that matches a
  signature against a registry of threshold rules.

Modelling conventions used throughout this file:
* JavaScript numbers are modelled as real numbers; the float literal 0.01
  becomes the exact real 1/100.  Division by zero in JS produces an
  infinity which is then clamped by the surrounding max(0, _) calls of the
  code; the real-number convention x / 0 = 0 yields the same clamped
  results at every division site of the code, as noted at each site.
* A Set of quads is modelled as the list of its elements in iteration
  order (JS Set iteration is insertion-ordered; nothing here depends on
  element uniqueness).
* parseFloat is modelled by an exact-rational reader of the ECMAScript
  parseFloat grammar: leading whitespace, an optional sign, either the
  word Infinity or a decimal mantissa with optional exponent, longest
  valid prefix, NaN (result none) when no prefix parses.  Values that
  parse to an infinity are representable (ParseOut.posInf / negInf) but
  lie outside the real-valued statistics model, so signature-level
  theorems assume every harvested value is finite.
-/

/-- Result of JS parseFloat when it does not return NaN: a finite
rational or one of the two infinities. -/
inductive ParseOut where
  | num (q : ℚ)
  | posInf
  | negInf
deriving DecidableEq

/-- JS whitespace characters accepted by parseFloat (the common ASCII ones). -/
def jsWhitespace (c : Char) : Bool :=
  c == ' ' || c == '\t' || c == '\n' || c == '\r' || c == '\x0b' || c == '\x0c'

/-- Split a character list into its leading run of decimal digits and the rest. -/
def splitDigits : List Char → List Char × List Char
  | [] => ([], [])
  | c :: rest =>
    if c.isDigit then
      let p := splitDigits rest
      (c :: p.1, p.2)
    else ([], c :: rest)

/-- Numeric value of a digit run. -/
def digitsToNat (ds : List Char) : ℕ :=
  ds.foldl (fun a c => 10 * a + (c.toNat - 48)) 0

/-- Value of a fractional digit run placed after the decimal point. -/
def fracVal (ds : List Char) : ℚ :=
  (digitsToNat ds : ℚ) / 10 ^ ds.length

/-- Parse the decimal mantissa (digits, optional point, optional fractional
digits) at the head of the input; returns its value and the unconsumed
rest, or none when no digit could be read (the NaN case). -/
def mantissaAndRest (l : List Char) : Option (ℚ × List Char) :=
  let p := splitDigits l
  if p.1.isEmpty then
    match p.2 with
    | '.' :: r2 =>
      let q := splitDigits r2
      if q.1.isEmpty then none else some (fracVal q.1, q.2)
    | _ => none
  else
    match p.2 with
    | '.' :: r2 =>
      let q := splitDigits r2
      some ((digitsToNat p.1 : ℚ) + fracVal q.1, q.2)
    | _ => some ((digitsToNat p.1 : ℚ), p.2)

/-- Exponent part of the parseFloat grammar: e or E, an optional sign and a
digit run; contributes 0 when absent or incomplete (longest valid prefix). -/
def expValue : List Char → ℤ
  | c :: rest =>
    if c == 'e' || c == 'E' then
      match rest with
      | '+' :: r2 => let q := splitDigits r2; if q.1.isEmpty then 0 else (digitsToNat q.1 : ℤ)
      | '-' :: r2 => let q := splitDigits r2; if q.1.isEmpty then 0 else -(digitsToNat q.1 : ℤ)
      | r2 => let q := splitDigits r2; if q.1.isEmpty then 0 else (digitsToNat q.1 : ℤ)
    else 0
  | [] => 0

/-- Body of parseFloat after the optional sign has been consumed. -/
def parseAfterSign (l : List Char) (neg : Bool) : Option ParseOut :=
  if List.isPrefixOf ("Infinity".toList) l then
    some (if neg then ParseOut.negInf else ParseOut.posInf)
  else
    match mantissaAndRest l with
    | none => none
    | some mr =>
      some (ParseOut.num ((if neg then -1 else 1) * mr.1 * (10 : ℚ) ^ (expValue mr.2)))

/-- Exact-rational model of JS parseFloat; none models the NaN result. -/
def parseFloatJS (s : String) : Option ParseOut :=
  match (s.toList).dropWhile jsWhitespace with
  | '+' :: rest => parseAfterSign rest false
  | '-' :: rest => parseAfterSign rest true
  | rest => parseAfterSign rest false

/-- Substring test on character lists (the JS String.includes). -/
def listHasSub (pat : List Char) : List Char → Bool
  | [] => pat.isEmpty
  | c :: t => List.isPrefixOf pat (c :: t) || listHasSub pat t

/-- s.includes(pat) of JS strings. -/
def strIncludes (s pat : String) : Bool :=
  listHasSub pat.toList s.toList

/-- Object position of a quad: a literal with its text and optional
datatype tag, or a non-literal term (termType other than Literal). -/
inductive Term where
  | literal (value : String) (datatype : Option String)
  | named (value : String)
deriving DecidableEq

/-- An RDF quad as used by the extractor: subject is never inspected,
predicate and object are. -/
structure Quad where
  subject : String
  predicate : String
  object : Term
deriving DecidableEq

/-- The numeric-harvesting decision of extractSignature for one quad,
translated from the literal / datatype branch of the loop: a literal whose
datatype contains integer, decimal, double or float is parsed; otherwise a
datatype containing string is parsed; any other datatype is skipped; a
missing datatype is parsed.  none means nothing is pushed. -/
def harvestQuad (q : Quad) : Option ParseOut :=
  match q.object with
  | Term.named _ => none
  | Term.literal v dt =>
    match dt with
    | some d =>
      if strIncludes d "integer" || strIncludes d "decimal" ||
         strIncludes d "double" || strIncludes d "float" then
        parseFloatJS v
      else if strIncludes d "string" then
        parseFloatJS v
      else none
    | none => parseFloatJS v

/-- The harvested numeric sequence of a window, in iteration order. -/
def harvest (w : List Quad) : List ParseOut :=
  w.filterMap harvestQuad

/-- True when every harvested value is finite, i.e. the window stays
inside the real-valued model of JS numbers. -/
def allFinite (l : List ParseOut) : Bool :=
  l.all fun x => match x with | ParseOut.num _ => true | _ => false

/-- The harvested values as real numbers (infinite parses are dropped;
under allFinite this is exactly the code's numericValues array). -/
def finiteVals (w : List Quad) : List ℝ :=
  (harvest w).filterMap fun x =>
    match x with
    | ParseOut.num q => some (q : ℝ)
    | _ => none

/-- The five-field signature produced per window. -/
structure StreamSignature where
  tripleCount : ℕ
  variance : ℝ
  skewness : ℝ
  entropy : ℝ
  fftEntropy : ℝ

/-- Keys of a JS Map built by repeated set(k, ...) over a list of keys:
each key once, in first-occurrence order. -/
def keysOf : List String → List String
  | [] => []
  | p :: rest => p :: (keysOf rest).filter (fun x => ¬ x = p)

/-- The entropy accumulation step shared by the two entropy loops of the
extractor: subtract p * log2 p for positive p, skip otherwise. -/
noncomputable def entStep (e p : ℝ) : ℝ :=
  if p > 0 then e - p * Real.logb 2 p else e

namespace SigX

/-- calculateMean of SignatureExtractor: reduce-sum divided by length,
0 for the empty array. -/
noncomputable def calculateMean (values : List ℝ) : ℝ :=
  if values.length = 0 then 0
  else values.foldl (· + ·) 0 / (values.length : ℝ)

/-- calculateVariance: sample variance (division by n - 1), 0 when fewer
than two values. -/
noncomputable def calculateVariance (values : List ℝ) : ℝ :=
  if values.length ≤ 1 then 0
  else
    let mean := calculateMean values
    let squaredDiffs := values.map fun val => (val - mean) ^ 2
    squaredDiffs.foldl (· + ·) 0 / ((values.length : ℝ) - 1)

/-- calculateSkewness: 0 when fewer than three values or zero standard
deviation, otherwise n / ((n-1)(n-2)) times the reduce-sum of the cubed
standardized values. -/
noncomputable def calculateSkewness (values : List ℝ) : ℝ :=
  if values.length ≤ 2 then 0
  else
    let mean := calculateMean values
    let variance := calculateVariance values
    let stdDev := Real.sqrt variance
    if stdDev = 0 then 0
    else
      let cubedDiffs := values.map fun val => ((val - mean) / stdDev) ^ 3
      let n := (values.length : ℝ)
      (n / ((n - 1) * (n - 2))) * cubedDiffs.foldl (· + ·) 0

/-- calculateEntropy: Shannon entropy (base 2) of the predicate frequency
distribution, iterating the counting Map in key insertion order. -/
noncomputable def calculateEntropy (quads : List Quad) : ℝ :=
  let preds := quads.map (fun q => q.predicate)
  let keys := keysOf preds
  let total := (quads.length : ℝ)
  (keys.map (fun p => (preds.count p : ℝ) / total)).foldl entStep 0

/-- The discrete Fourier transform of a real sequence, the mathematical
contract of the external fft-js call (spec section 4.1 fixes the
transform to be the complex DFT; the library's radix-2 algorithm computes
exactly this on power-of-two lengths). -/
noncomputable def dftList (x : List ℝ) : List ℂ :=
  (List.range x.length).map fun k =>
    ∑ n ∈ Finset.range x.length,
      (x.getD n 0 : ℂ) *
        Complex.exp (-(2 * (Real.pi : ℂ) * Complex.I * (k : ℂ) * (n : ℂ)) / (x.length : ℂ))

/-- calculateFFTEntropy: early return 0 for fewer than two values; pad
with trailing zeros to 2 ^ ceil(log2 n); magnitudes of the transform;
return 0 when the total magnitude is 0; otherwise the Shannon entropy of
the normalized magnitudes, skipping zero bins. -/
noncomputable def calculateFFTEntropy (values : List ℝ) : ℝ :=
  if values.length = 0 then 0
  else if values.length = 1 then 0
  else
    let targetLength := 2 ^ Nat.clog 2 values.length
    let paddedValues := values ++ List.replicate (targetLength - values.length) 0
    let fftResult := dftList paddedValues
    let magnitudes := fftResult.map Complex.abs
    let totalMagnitude := magnitudes.foldl (· + ·) 0
    if totalMagnitude = 0 then 0
    else
      let probabilities := magnitudes.map (fun mag => mag / totalMagnitude)
      probabilities.foldl entStep 0

/-- extractSignature of the current SignatureExtractor (the revision with
fftEntropy). -/
noncomputable def extractSignature (windowData : List Quad) : StreamSignature :=
  let numericValues := finiteVals windowData
  { tripleCount := windowData.length
    variance := calculateVariance numericValues
    skewness := calculateSkewness numericValues
    entropy := calculateEntropy windowData
    fftEntropy := calculateFFTEntropy numericValues }

end SigX

/-- The four-field signature object returned by the earlier
SignatureExtractor revision, which does not compute fftEntropy. -/
structure OldStreamSignature where
  tripleCount : ℕ
  variance : ℝ
  skewness : ℝ
  entropy : ℝ

namespace SigOld

/-!
Embedding of the earlier SignatureExtractor revision.  Its numeric
harvesting loop is character-for-character the loop of the current
revision, so the shared harvest / finiteVals model above serves both; the
statistical helpers are embedded afresh from the old file below.
-/

/-- calculateMean of the earlier revision. -/
noncomputable def calculateMean (values : List ℝ) : ℝ :=
  if values.length = 0 then 0
  else values.foldl (· + ·) 0 / (values.length : ℝ)

/-- calculateVariance of the earlier revision. -/
noncomputable def calculateVariance (values : List ℝ) : ℝ :=
  if values.length ≤ 1 then 0
  else
    let mean := calculateMean values
    let squaredDiffs := values.map fun val => (val - mean) ^ 2
    squaredDiffs.foldl (· + ·) 0 / ((values.length : ℝ) - 1)

/-- calculateSkewness of the earlier revision. -/
noncomputable def calculateSkewness (values : List ℝ) : ℝ :=
  if values.length ≤ 2 then 0
  else
    let mean := calculateMean values
    let variance := calculateVariance values
    let stdDev := Real.sqrt variance
    if stdDev = 0 then 0
    else
      let cubedDiffs := values.map fun val => ((val - mean) / stdDev) ^ 3
      let n := (values.length : ℝ)
      (n / ((n - 1) * (n - 2))) * cubedDiffs.foldl (· + ·) 0

/-- calculateEntropy of the earlier revision. -/
noncomputable def calculateEntropy (quads : List Quad) : ℝ :=
  let preds := quads.map (fun q => q.predicate)
  let keys := keysOf preds
  let total := (quads.length : ℝ)
  (keys.map (fun p => (preds.count p : ℝ) / total)).foldl entStep 0

/-- extractSignature of the earlier revision: same harvesting, same three
statistics, no fftEntropy field. -/
noncomputable def extractSignature (windowData : List Quad) : OldStreamSignature :=
  let numericValues := finiteVals windowData
  { tripleCount := windowData.length
    variance := calculateVariance numericValues
    skewness := calculateSkewness numericValues
    entropy := calculateEntropy windowData }

end SigOld

/-- The optional per-field thresholds of an approach configuration. -/
structure ApproachThresholds where
  variance : Option ℝ := none
  skewness : Option ℝ := none
  entropy : Option ℝ := none
  fftEntropy : Option ℝ := none
  tripleCount : Option ℝ := none

/-- An approach configuration of the registry. -/
structure ApproachConfig where
  name : String
  description : Option String := none
  minThresholds : Option ApproachThresholds := none
  maxThresholds : Option ApproachThresholds := none
  priority : Option ℝ := none

/-- The recommendation returned by chooseApproach. -/
structure Recommendation where
  recommendedApproach : String
  matchingApproaches : List String
  signature : StreamSignature
  confidence : ℝ

/-- One entry of the approachEvaluations array of chooseApproach. -/
structure Evaluation where
  name : String
  score : ℝ
  specificity : ℝ
  priority : ℝ

namespace HSB

/-- The five (threshold, signature value) pairs inspected by each of the
min / max loops, in source order. -/
def checkList (t : ApproachThresholds) (s : StreamSignature) : List (Option ℝ × ℝ) :=
  [(t.variance, s.variance), (t.skewness, s.skewness), (t.entropy, s.entropy),
   (t.fftEntropy, s.fftEntropy), (t.tripleCount, (s.tripleCount : ℝ))]

/-- One iteration of the minimum-threshold loop of evaluateApproach over
the running (matches, totalScore, criteriaCount) state.  In the violated
branch the JS value / 0 is an infinity clamped to 0 by Math.max; the real
convention value / 0 = 0 gives the same clamped contribution, since a
violated zero min-threshold forces value < 0. -/
noncomputable def minStep (st : Bool × ℝ × ℕ) (c : Option ℝ × ℝ) : Bool × ℝ × ℕ :=
  match c.1 with
  | none => st
  | some threshold =>
    if c.2 ≥ threshold then (st.1, st.2.1 + 1, st.2.2 + 1)
    else (false, st.2.1 + max 0 (c.2 / threshold), st.2.2 + 1)

/-- One iteration of the maximum-threshold loop of evaluateApproach; a
violated max-threshold over value 0 forces threshold < 0 and JS produces
a negative infinity clamped to 0, as does the real convention. -/
noncomputable def maxStep (st : Bool × ℝ × ℕ) (c : Option ℝ × ℝ) : Bool × ℝ × ℕ :=
  match c.1 with
  | none => st
  | some threshold =>
    if c.2 ≤ threshold then (st.1, st.2.1 + 1, st.2.2 + 1)
    else (false, st.2.1 + max 0 (threshold / c.2), st.2.2 + 1)

/-- evaluateApproach: run the min loop then the max loop, average the
contributions over the criteria count (score 0 when no criterion). -/
noncomputable def evaluateApproach (signature : StreamSignature) (config : ApproachConfig) :
    Bool × ℝ :=
  let st0 : Bool × ℝ × ℕ := (true, 0, 0)
  let st1 :=
    match config.minThresholds with
    | none => st0
    | some t => (checkList t signature).foldl minStep st0
  let st2 :=
    match config.maxThresholds with
    | none => st1
    | some t => (checkList t signature).foldl maxStep st1
  (st2.1, if st2.2.2 > 0 then st2.2.1 / (st2.2.2 : ℝ) else 0)

/-- One iteration of the min-threshold loop of calculateSpecificity over
the running (score, thresholdCount) state. -/
noncomputable def specMinStep (st : ℝ × ℕ) (c : Option ℝ × ℝ) : ℝ × ℕ :=
  match c.1 with
  | none => st
  | some threshold =>
    (st.1 + (if c.2 > 0 then threshold / (c.2 + 1) else threshold), st.2 + 1)

/-- One iteration of the max-threshold loop of calculateSpecificity. -/
noncomputable def specMaxStep (st : ℝ × ℕ) (c : Option ℝ × ℝ) : ℝ × ℕ :=
  match c.1 with
  | none => st
  | some threshold => (st.1 + 1 / (threshold + 1), st.2 + 1)

/-- calculateSpecificity: accumulate both loops and normalize by the
number of declared thresholds (0 when none). -/
noncomputable def calculateSpecificity (signature : StreamSignature) (config : ApproachConfig) :
    ℝ :=
  let st0 : ℝ × ℕ := (0, 0)
  let st1 :=
    match config.minThresholds with
    | none => st0
    | some t => (checkList t signature).foldl specMinStep st0
  let st2 :=
    match config.maxThresholds with
    | none => st1
    | some t => (checkList t signature).foldl specMaxStep st1
  if st2.2 > 0 then st2.1 / (st2.2 : ℝ) else 0

/-- The matching pass of chooseApproach: walk the registry in iteration
order, collecting matching names and their evaluation records. -/
noncomputable def evalLoop (signature : StreamSignature) (configs : List ApproachConfig) :
    List String × List Evaluation :=
  configs.foldl
    (fun acc config =>
      let r := evaluateApproach signature config
      if r.1 then
        (acc.1 ++ [config.name],
         acc.2 ++ [{ name := config.name, score := r.2,
                     specificity := calculateSpecificity signature config,
                     priority := config.priority.getD 0 }])
      else acc)
    ([], [])

/-- The evaluation record chooseApproach pushes for one matching
configuration. -/
noncomputable def mkEval (signature : StreamSignature) (config : ApproachConfig) :
    Evaluation :=
  { name := config.name, score := (evaluateApproach signature config).2,
    specificity := calculateSpecificity signature config,
    priority := config.priority.getD 0 }

/-- The sort comparator of chooseApproach: specificity descending unless
the two specificities are within 0.01, then priority descending. -/
noncomputable def evalCompare (a b : Evaluation) : ℝ :=
  if |a.specificity - b.specificity| > 0.01 then b.specificity - a.specificity
  else b.priority - a.priority

/-- Insert one element into an already sorted list, before the first
element the comparator does not order it after. -/
noncomputable def insertCmp (x : Evaluation) : List Evaluation → List Evaluation
  | [] => [x]
  | y :: ys => if evalCompare x y ≤ 0 then x :: y :: ys else y :: insertCmp x ys

/-- The Array.prototype.sort call of chooseApproach, modelled as a stable
insertion sort driven by the comparator (for the two-element arrays of
the ranking claims this coincides exactly with the JS sort, which swaps a
pair precisely when the comparator is positive on it). -/
noncomputable def sortEvals : List Evaluation → List Evaluation
  | [] => []
  | x :: xs => insertCmp x (sortEvals xs)

/-- chooseApproach: extract the signature, evaluate every registered
configuration, and either return the default recommendation or the
best-ranked evaluation with its clamped score as confidence. -/
noncomputable def chooseApproach (configs : List ApproachConfig) (windowData : List Quad) :
    Recommendation :=
  let signature := SigX.extractSignature windowData
  let pass := evalLoop signature configs
  match sortEvals pass.2 with
  | [] =>
    { recommendedApproach := "default", matchingApproaches := pass.1,
      signature := signature, confidence := 0 }
  | top :: _ =>
    { recommendedApproach := top.name, matchingApproaches := pass.1,
      signature := signature, confidence := min top.score 1 }

/-- The registry of a HiveScoutBee instance: its configurations in Map
insertion order, names unique. -/
abbrev HiveState := List ApproachConfig

/-- addApproach: Map.set semantics, overwrite in place when the name
exists, append otherwise. -/
def addApproach (st : HiveState) (cfg : ApproachConfig) : HiveState :=
  if (List.any st fun c => c.name == cfg.name) then
    List.map (fun c => if c.name == cfg.name then cfg else c) st
  else st ++ [cfg]

/-- The constructor: fold the supplied configurations into an empty map. -/
def mkHive (approaches : List ApproachConfig) : HiveState :=
  approaches.foldl addApproach []

/-- removeApproach: Map.delete semantics, the new registry plus whether
the name was present. -/
def removeApproach (st : HiveState) (name : String) : HiveState × Bool :=
  (List.filter (fun c => ¬ c.name == name) st, List.any st fun c => c.name == name)

/-- getAvailableApproaches: the key list. -/
def getAvailableApproaches (st : HiveState) : List String :=
  List.map (fun c => c.name) st

/-- getApproachConfig: Map.get by name. -/
def getApproachConfig (st : HiveState) (name : String) : Option ApproachConfig :=
  List.find? (fun c => c.name == name) st

/-- chooseApproach as a state transformer: the method body reads the
registry (this.approachConfigs) but contains no set or delete call, so
the registry handed back is the one handed in. -/
noncomputable def chooseApproachM (st : HiveState) (w : List Quad) :
    HiveState × Recommendation :=
  (st, chooseApproach st w)

end HSB

/-!  Specification-side definitions, written from the words of the claims
so they can be compared with the source embeddings above. -/

/-- Contribution of one probability to a base-2 Shannon entropy, zero
bins skipped. -/
noncomputable def plog (p : ℝ) : ℝ :=
  if 0 < p then p * Real.logb 2 p else 0

/-- The next power of two greater than or equal to n, literally as the
least such power (claim C1's padding target). -/
def specNextPow2 (n : ℕ) : ℕ :=
  2 ^ Nat.find (⟨n, (Nat.lt_two_pow n).le⟩ : ∃ k, n ≤ 2 ^ k)

/-- Claim C1's description of fftEntropy: 0 below two values; zero-pad to
the next power of two at or above the length; take the magnitudes of the
discrete Fourier transform; 0 when the total magnitude is 0; otherwise
the base-2 Shannon entropy of the normalized magnitudes. -/
noncomputable def specFFTEntropy (values : List ℝ) : ℝ :=
  if values.length < 2 then 0
  else
    let padded := values ++ List.replicate (specNextPow2 values.length - values.length) 0
    let mags := (SigX.dftList padded).map Complex.abs
    let total := mags.sum
    if total = 0 then 0
    else -((mags.map fun m => plog (m / total)).sum)

/-- Claim C2's description of skewness: the cubed standardized values are
averaged and then scaled by n / ((n-1)(n-2)). -/
noncomputable def specC2Skewness (values : List ℝ) : ℝ :=
  let n : ℝ := values.length
  let mean := values.sum / n
  let s := Real.sqrt ((values.map fun v => (v - mean) ^ 2).sum / (n - 1))
  if values.length < 3 ∨ s = 0 then 0
  else (n / ((n - 1) * (n - 2))) * (((values.map fun v => ((v - mean) / s) ^ 3).sum) / n)

/-- Claim C2 amended to what the code computes: the cubed standardized
values are summed (not averaged) and scaled by n / ((n-1)(n-2)). -/
noncomputable def amendedSkewness (values : List ℝ) : ℝ :=
  let n : ℝ := values.length
  let mean := values.sum / n
  let s := Real.sqrt ((values.map fun v => (v - mean) ^ 2).sum / (n - 1))
  if values.length < 3 ∨ s = 0 then 0
  else (n / ((n - 1) * (n - 2))) * ((values.map fun v => ((v - mean) / s) ^ 3).sum)

/-- Claim C6's entropy: minus the sum, over the distinct predicates of
the window, of p * log2 p with p the predicate's triple count over the
window size. -/
noncomputable def specPredicateEntropy (w : List Quad) : ℝ :=
  -∑ p ∈ (w.map fun q => q.predicate).toFinset,
    (((w.map fun q => q.predicate).count p : ℝ) / (w.length : ℝ)) *
      Real.logb 2 (((w.map fun q => q.predicate).count p : ℝ) / (w.length : ℝ))

/-- The datatype condition shared by claim C5 and its amendment: no
datatype tag, or a tag containing one of the five substrings. -/
def dtAccepted (dt : Option String) : Bool :=
  match dt with
  | none => true
  | some d =>
    strIncludes d "integer" || strIncludes d "decimal" || strIncludes d "double" ||
      strIncludes d "float" || strIncludes d "string"

/-- Claim C5's harvesting predicate: a literal with an accepted datatype
whose text parses as a finite number. -/
def claimHarvests (q : Quad) : Bool :=
  match q.object with
  | Term.literal v dt =>
    dtAccepted dt &&
      (match parseFloatJS v with | some (ParseOut.num _) => true | _ => false)
  | Term.named _ => false

/-- Claim C5 amended to what the code does: a literal with an accepted
datatype whose text parses as a number at all, infinite parses included. -/
def amendedHarvests (q : Quad) : Bool :=
  match q.object with
  | Term.literal v dt => dtAccepted dt && (parseFloatJS v).isSome
  | Term.named _ => false

/-- Every present threshold of the record is nonnegative. -/
def ThreshNonneg (t : ApproachThresholds) : Prop :=
  (∀ x, t.variance = some x → 0 ≤ x) ∧ (∀ x, t.skewness = some x → 0 ≤ x) ∧
    (∀ x, t.entropy = some x → 0 ≤ x) ∧ (∀ x, t.fftEntropy = some x → 0 ≤ x) ∧
    (∀ x, t.tripleCount = some x → 0 ≤ x)

/-- Every real field of the signature is nonnegative. -/
def SigNonneg (s : StreamSignature) : Prop :=
  0 ≤ s.variance ∧ 0 ≤ s.skewness ∧ 0 ≤ s.entropy ∧ 0 ≤ s.fftEntropy

/-- Every threshold declared anywhere in the configuration is nonnegative. -/
def CfgNonneg (cfg : ApproachConfig) : Prop :=
  (∀ t, cfg.minThresholds = some t → ThreshNonneg t) ∧
    (∀ t, cfg.maxThresholds = some t → ThreshNonneg t)

/-- Number of thresholds present in one thresholds record. -/
def threshCount (t : ApproachThresholds) : ℕ :=
  (if t.variance.isSome then 1 else 0) + (if t.skewness.isSome then 1 else 0) +
    (if t.entropy.isSome then 1 else 0) + (if t.fftEntropy.isSome then 1 else 0) +
    (if t.tripleCount.isSome then 1 else 0)

/-- Number of thresholds a configuration declares across both bounds. -/
def declaredCount (cfg : ApproachConfig) : ℕ :=
  (match cfg.minThresholds with | none => 0 | some t => threshCount t) +
    (match cfg.maxThresholds with | none => 0 | some t => threshCount t)

/-!  Concrete inputs used by witnesses and counterexamples. -/

/-- A quad carrying an untyped numeric literal. -/
def numQuad (s p v : String) : Quad :=
  { subject := s, predicate := p, object := Term.literal v none }

/-- Window whose harvested sequence is [0, 0, 1]. -/
def exW001 : List Quad :=
  [numQuad "s1" "p" "0", numQuad "s2" "p" "0", numQuad "s3" "p" "1"]

/-- Window whose harvested sequence is [1, 2, 3]. -/
def exW123 : List Quad :=
  [numQuad "s1" "p" "1", numQuad "s2" "p" "2", numQuad "s3" "p" "3"]

/-- A quad whose untyped literal parses to positive infinity. -/
def exQuadInf : Quad :=
  { subject := "s", predicate := "p", object := Term.literal "Infinity" none }

/-- Rule with the single bound variance <= 0 (specificity 1 on any
signature). -/
noncomputable def exCfgA : ApproachConfig :=
  { name := "A", maxThresholds := some { variance := some 0 } }

/-- A signature whose skewness is negative. -/
noncomputable def exSigNeg : StreamSignature :=
  { tripleCount := 0, variance := 0, skewness := -5, entropy := 0, fftEntropy := 0 }

/-- Rule with the single bound skewness >= -1. -/
noncomputable def exCfgNeg : ApproachConfig :=
  { name := "neg", minThresholds := some { skewness := some (-1) } }

/-- Rule requiring at least five triples; no empty window matches it. -/
noncomputable def exCfgMin5 : ApproachConfig :=
  { name := "five", minThresholds := some { tripleCount := some 5 } }

/-- Rule declaring no thresholds at all. -/
def exCfgEmpty : ApproachConfig :=
  { name := "empty" }

/-!  General lemmas about the folds used by the extractor. -/

/-- The reduce-sum of the source is the list sum. -/
theorem foldl_add_eq (l : List ℝ) (a : ℝ) : l.foldl (· + ·) a = a + l.sum := by
  induction l generalizing a with
  | nil => simp
  | cons x xs ih => simp only [List.foldl_cons, ih, List.sum_cons]; ring

/-- One entropy-loop iteration subtracts the plog contribution. -/
theorem entStep_eq (e p : ℝ) : entStep e p = e - plog p := by
  unfold entStep plog
  split_ifs with h
  · rfl
  · simp

/-- The entropy loop accumulates minus the sum of plog contributions. -/
theorem foldl_entStep_eq (l : List ℝ) (a : ℝ) :
    l.foldl entStep a = a - (l.map plog).sum := by
  induction l generalizing a with
  | nil => simp
  | cons x xs ih =>
    simp only [List.foldl_cons, entStep_eq, ih, List.map_cons, List.sum_cons]
    ring

/-- Membership in the key list of the counting map. -/
theorem mem_keysOf {x : String} : ∀ {l : List String}, x ∈ keysOf l ↔ x ∈ l := by
  intro l
  induction l with
  | nil => simp [keysOf]
  | cons p rest ih =>
    by_cases hx : x = p
    · subst hx; simp [keysOf]
    · simp [keysOf, hx, ih]

/-- The key list of the counting map has no duplicates. -/
theorem keysOf_nodup : ∀ l : List String, (keysOf l).Nodup := by
  intro l
  induction l with
  | nil => simp [keysOf]
  | cons p rest ih =>
    refine List.nodup_cons.mpr ⟨?_, ih.filter _⟩
    intro hmem
    have := List.of_mem_filter hmem
    simp at this

/-- The spec's padding target agrees with the code's
2 ^ ceil(log2 n). -/
theorem specNextPow2_eq (n : ℕ) : specNextPow2 n = 2 ^ Nat.clog 2 n := by
  unfold specNextPow2
  congr 1
  apply le_antisymm
  · exact Nat.find_le (Nat.le_pow_clog one_lt_two n)
  · exact (Nat.le_pow_iff_clog_le one_lt_two).mp
      (Nat.find_spec (⟨n, (Nat.lt_two_pow n).le⟩ : ∃ k, n ≤ 2 ^ k))

/-- The signature of the empty window is identically zero. -/
theorem extractSignature_nil :
    SigX.extractSignature [] =
      { tripleCount := 0, variance := 0, skewness := 0, entropy := 0, fftEntropy := 0 } := by
  unfold SigX.extractSignature finiteVals harvest
  simp [SigX.calculateVariance, SigX.calculateSkewness, SigX.calculateEntropy,
    SigX.calculateFFTEntropy, keysOf]

/-- C9: a call to chooseApproach leaves the registry unchanged — the
state it hands back is the state it was handed, so the approach names
and every per-name configuration read the same before and after; only
addApproach and removeApproach produce a different registry. -/
theorem C9_chooseApproach_preserves_registry :
    ∀ (st : HSB.HiveState) (w : List Quad),
      (HSB.chooseApproachM st w).1 = st ∧
      HSB.getAvailableApproaches (HSB.chooseApproachM st w).1 =
        HSB.getAvailableApproaches st ∧
      ∀ name, HSB.getApproachConfig (HSB.chooseApproachM st w).1 name =
        HSB.getApproachConfig st name := by
  intro st w
  exact ⟨rfl, rfl, fun _ => rfl⟩

/-- C10: the earlier SignatureExtractor revision and the current one
agree on every field they share — tripleCount, variance, skewness and
entropy are computed identically for every window. -/
theorem C10_old_new_extractor_agree :
    ∀ w : List Quad,
      (SigOld.extractSignature w).tripleCount = (SigX.extractSignature w).tripleCount ∧
      (SigOld.extractSignature w).variance = (SigX.extractSignature w).variance ∧
      (SigOld.extractSignature w).skewness = (SigX.extractSignature w).skewness ∧
      (SigOld.extractSignature w).entropy = (SigX.extractSignature w).entropy := by
  intro w
  exact ⟨rfl, rfl, rfl, rfl⟩

/-- C5 counterexample: the untyped literal "Infinity" does not parse as a
finite number, so the claim says it is not harvested; the code's
parseFloat returns the infinity (which is not NaN) and harvests it. -/
theorem C5_counterexample :
    harvest [exQuadInf] = [ParseOut.posInf] ∧ claimHarvests exQuadInf = false := by
  constructor
  · decide
  · decide

/-- C5 amended: a number is harvested from a triple exactly when its
object is a literal whose datatype tag is absent or contains one of the
five substrings, and whose text parses as a number under JS parseFloat
(NaN excluded; infinite parses such as "Infinity" are harvested); all
other triples contribute nothing, and no error is raised (harvesting is
a total function). -/
theorem C5_amended_harvest_iff :
    ∀ q : Quad, (harvestQuad q).isSome = amendedHarvests q := by
  intro q
  cases hobj : q.object with
  | named v => simp [harvestQuad, amendedHarvests, hobj]
  | literal v dt =>
    cases dt with
    | none => simp [harvestQuad, amendedHarvests, dtAccepted, hobj]
    | some d =>
      cases hI : strIncludes d "integer" <;> cases hD : strIncludes d "decimal" <;>
        cases hDb : strIncludes d "double" <;> cases hF : strIncludes d "float" <;>
        cases hS : strIncludes d "string" <;>
        simp [harvestQuad, amendedHarvests, dtAccepted, hobj, hI, hD, hDb, hF, hS]

/-- The entropy loop of the extractor computes the claim's predicate
entropy formula. -/
theorem calculateEntropy_eq_spec (w : List Quad) :
    SigX.calculateEntropy w = specPredicateEntropy w := by
  have hL : SigX.calculateEntropy w =
      ((keysOf (w.map fun q => q.predicate)).map
        (fun p => ((w.map fun q => q.predicate).count p : ℝ) / (w.length : ℝ))).foldl
          entStep 0 := rfl
  rw [hL, foldl_entStep_eq, zero_sub, List.map_map]
  unfold specPredicateEntropy
  have hfin : ((w.map fun q => q.predicate).toFinset : Finset String) =
      (keysOf (w.map fun q => q.predicate)).toFinset := by
    ext p
    simp [mem_keysOf]
  rw [hfin, List.sum_toFinset _ (keysOf_nodup _), neg_inj]
  apply congrArg List.sum
  apply List.map_congr_left
  intro p hp
  have hpmem : p ∈ w.map fun q => q.predicate := mem_keysOf.mp hp
  have hw : 0 < w.length := by
    rcases List.mem_map.mp hpmem with ⟨q, hq, _⟩
    exact List.length_pos.mpr (List.ne_nil_of_mem hq)
  have hcnt : 0 < (w.map fun q => q.predicate).count p := List.count_pos_iff.mpr hpmem
  have hprob : 0 < ((w.map fun q => q.predicate).count p : ℝ) / (w.length : ℝ) :=
    div_pos (by exact_mod_cast hcnt) (by exact_mod_cast hw)
  simp [Function.comp, plog, hprob]

/-- C6: the entropy field is the base-2 Shannon entropy of the
predicate-frequency distribution over all triples of the window, and the
empty window yields exactly 0 (the per-predicate loop body never runs, so
the division by a zero tripleCount is never performed). -/
theorem C6_entropy_matches_spec :
    (∀ w : List Quad, (SigX.extractSignature w).entropy = specPredicateEntropy w) ∧
    (SigX.extractSignature []).entropy = 0 := by
  constructor
  · intro w
    exact calculateEntropy_eq_spec w
  · rw [extractSignature_nil]

/-- The code's fftEntropy pipeline equals the claim's description of it
for every value sequence. -/
theorem calculateFFTEntropy_eq_spec (values : List ℝ) :
    SigX.calculateFFTEntropy values = specFFTEntropy values := by
  unfold SigX.calculateFFTEntropy specFFTEntropy
  by_cases h0 : values.length = 0
  · rw [if_pos h0, if_pos (by omega)]
  · by_cases h1 : values.length = 1
    · rw [if_neg h0, if_pos h1, if_pos (by omega)]
    · rw [if_neg h0, if_neg h1, if_neg (show ¬ values.length < 2 by omega)]
      simp only [specNextPow2_eq, foldl_add_eq, zero_add, foldl_entStep_eq, zero_sub,
        List.map_map, Function.comp]
      rfl

/-- An index read anywhere in an all-zero list yields zero. -/
theorem getD_replicate_zero (T i : ℕ) : (List.replicate T (0:ℝ)).getD i 0 = 0 := by
  induction T generalizing i with
  | zero => simp
  | succ n ih =>
    cases i with
    | zero => simp [List.replicate_succ]
    | succ j => simp [List.replicate_succ, ih]

/-- The spectral entropy of an all-zero sequence is 0: every transform
bin is 0, so the total magnitude is 0 and the zero guard fires. -/
theorem fftEntropy_zero_seq (n : ℕ) :
    SigX.calculateFFTEntropy (List.replicate n (0:ℝ)) = 0 := by
  unfold SigX.calculateFFTEntropy
  by_cases h0 : (List.replicate n (0:ℝ)).length = 0
  · rw [if_pos h0]
  · by_cases h1 : (List.replicate n (0:ℝ)).length = 1
    · rw [if_neg h0, if_pos h1]
    · rw [if_neg h0, if_neg h1]
      have hlen : (List.replicate n (0:ℝ)).length = n := List.length_replicate n 0
      have hle : n ≤ 2 ^ Nat.clog 2 n := Nat.le_pow_clog one_lt_two n
      have hpad : List.replicate n (0:ℝ) ++
          List.replicate (2 ^ Nat.clog 2 (List.replicate n (0:ℝ)).length -
            (List.replicate n (0:ℝ)).length) (0:ℝ) =
          List.replicate (2 ^ Nat.clog 2 n) (0:ℝ) := by
        rw [hlen, ← List.replicate_add]
        congr 1
        omega
      have hdft : ∀ z ∈ SigX.dftList (List.replicate (2 ^ Nat.clog 2 n) (0:ℝ)), z = 0 := by
        intro z hz
        unfold SigX.dftList at hz
        rcases List.mem_map.mp hz with ⟨k, _, hk⟩
        rw [← hk]
        apply Finset.sum_eq_zero
        intro i _
        rw [getD_replicate_zero]
        simp
      have hmag : ∀ m ∈ (SigX.dftList (List.replicate (2 ^ Nat.clog 2 n) (0:ℝ))).map
          Complex.abs, m = 0 := by
        intro m hm
        rcases List.mem_map.mp hm with ⟨z, hz, hzm⟩
        rw [← hzm, hdft z hz]
        simp
      simp only [foldl_add_eq, zero_add]
      rw [hpad, if_pos (List.sum_eq_zero hmag)]

/-- C1: the fftEntropy field of extractSignature is the base-2 Shannon
entropy of the normalized magnitude spectrum of the harvested sequence
after zero-padding to the next power of two at or above its length; it
is 0 below two harvested values and 0 whenever the total magnitude is 0,
in particular on every all-zero sequence. -/
theorem C1_fftEntropy_matches_spec :
    (∀ w : List Quad, allFinite (harvest w) = true →
      (SigX.extractSignature w).fftEntropy = specFFTEntropy (finiteVals w)) ∧
    (∀ n : ℕ, SigX.calculateFFTEntropy (List.replicate n (0:ℝ)) = 0) := by
  constructor
  · intro w _
    exact calculateFFTEntropy_eq_spec (finiteVals w)
  · exact fftEntropy_zero_seq

/-- C1 witness: a window harvesting the finite sequence [1, 2, 3]. -/
theorem C1_witness :
    allFinite (harvest exW123) = true ∧
    (SigX.extractSignature exW123).fftEntropy = specFFTEntropy (finiteVals exW123) :=
  ⟨by decide, C1_fftEntropy_matches_spec.1 exW123 (by decide)⟩

/-- The reduce-based mean is the list sum over the length. -/
theorem calculateMean_eq (values : List ℝ) (h : values.length ≠ 0) :
    SigX.calculateMean values = values.sum / (values.length : ℝ) := by
  unfold SigX.calculateMean
  rw [if_neg h, foldl_add_eq, zero_add]

/-- The reduce-based sample variance in closed form, for at least two
values. -/
theorem calculateVariance_eq (values : List ℝ) (h : 2 ≤ values.length) :
    SigX.calculateVariance values =
      (values.map fun v => (v - values.sum / (values.length : ℝ)) ^ 2).sum /
        ((values.length : ℝ) - 1) := by
  unfold SigX.calculateVariance
  rw [if_neg (by omega)]
  simp only [calculateMean_eq values (by omega), foldl_add_eq, zero_add]

/-- What calculateSkewness computes is the amended formula: the sum of
cubed standardized values (not their average) scaled by
n / ((n-1)(n-2)). -/
theorem calculateSkewness_eq_amended (values : List ℝ) :
    SigX.calculateSkewness values = amendedSkewness values := by
  unfold SigX.calculateSkewness amendedSkewness
  by_cases h3 : values.length ≤ 2
  · rw [if_pos h3, if_pos (Or.inl (by omega))]
  · rw [if_neg h3]
    simp only [calculateMean_eq values (by omega), calculateVariance_eq values (by omega),
      foldl_add_eq, zero_add]
    split_ifs with hs hor hor2
    · rfl
    · exact absurd (Or.inr hs) hor
    · rcases hor2 with hlen | hzero
      · omega
      · exact absurd hzero hs
    · rfl

/-- C2 counterexample: on the harvested sequence [0, 0, 1] the code's
skewness is three times the claim's value (sum versus average of the
cubed standardized values), so the two differ. -/
theorem C2_counterexample :
    (SigX.extractSignature exW001).skewness ≠ specC2Skewness (finiteVals exW001) := by
  have hfv : finiteVals exW001 = [0, 0, 1] := by
    simp [finiteVals, harvest, exW001, numQuad, harvestQuad, parseFloatJS, parseAfterSign,
      mantissaAndRest, splitDigits, expValue, digitsToNat, fracVal, jsWhitespace]
  have hsk : (SigX.extractSignature exW001).skewness =
      SigX.calculateSkewness (finiteVals exW001) := rfl
  rw [hsk, hfv, calculateSkewness_eq_amended]
  simp only [amendedSkewness, specC2Skewness]
  norm_num [Real.sqrt_eq_zero']
  intro heq
  have h3 : (0:ℝ) < Real.sqrt 3 := Real.sqrt_pos.mpr (by norm_num)
  have hX0 : ((-(1 / 3 * Real.sqrt 3)) ^ 3 +
      ((-(1 / 3 * Real.sqrt 3)) ^ 3 + (2 / 3 * Real.sqrt 3) ^ 3)) = 0 := by
    linarith
  have h2 : Real.sqrt 3 ^ 2 = 3 := Real.sq_sqrt (by norm_num)
  have hs3 : Real.sqrt 3 ^ 3 = 3 * Real.sqrt 3 := by
    calc Real.sqrt 3 ^ 3 = Real.sqrt 3 ^ 2 * Real.sqrt 3 := by ring
    _ = 3 * Real.sqrt 3 := by rw [h2]
  rw [show ((-(1 / 3 * Real.sqrt 3)) ^ 3 +
      ((-(1 / 3 * Real.sqrt 3)) ^ 3 + (2 / 3 * Real.sqrt 3) ^ 3)) =
      (2 / 9) * Real.sqrt 3 ^ 3 by ring] at hX0
  rw [hs3] at hX0
  linarith

/-- C2 amended: the skewness field is 0 below three harvested values or
at zero standard deviation, and otherwise is the SUM of the cubed
standardized values scaled by n / ((n-1)(n-2)) — the code multiplies the
scale onto the sum, not onto their average. -/
theorem C2_skewness_amended :
    ∀ w : List Quad, allFinite (harvest w) = true →
      (SigX.extractSignature w).skewness = amendedSkewness (finiteVals w) := by
  intro w _
  exact calculateSkewness_eq_amended (finiteVals w)

/-- C2 witness: a window harvesting the finite sequence [1, 2, 3]. -/
theorem C2_witness :
    allFinite (harvest exW123) = true ∧
    (SigX.extractSignature exW123).skewness = amendedSkewness (finiteVals exW123) :=
  ⟨by decide, C2_skewness_amended exW123 (by decide)⟩

/-- The matching pass in closed form: names and evaluation records of the
matching configurations, in registry order. -/
theorem evalLoop_eq (signature : StreamSignature) (configs : List ApproachConfig) :
    HSB.evalLoop signature configs =
      ((configs.filter fun c => (HSB.evaluateApproach signature c).1).map (fun c => c.name),
       (configs.filter fun c => (HSB.evaluateApproach signature c).1).map
         (HSB.mkEval signature)) := by
  have hgo : ∀ (cs : List ApproachConfig) (acc : List String × List Evaluation),
      cs.foldl
        (fun acc config =>
          let r := HSB.evaluateApproach signature config
          if r.1 then
            (acc.1 ++ [config.name],
             acc.2 ++ [{ name := config.name, score := r.2,
                         specificity := HSB.calculateSpecificity signature config,
                         priority := config.priority.getD 0 }])
          else acc) acc =
        (acc.1 ++ (cs.filter fun c => (HSB.evaluateApproach signature c).1).map
          (fun c => c.name),
         acc.2 ++ (cs.filter fun c => (HSB.evaluateApproach signature c).1).map
           (HSB.mkEval signature)) := by
    intro cs
    induction cs with
    | nil => intro acc; simp
    | cons c rest ih =>
      intro acc
      simp only [List.foldl_cons, List.filter_cons]
      by_cases hc : (HSB.evaluateApproach signature c).1
      · simp only [hc, if_true, ih, List.map_cons, HSB.mkEval]
        simp
      · simp only [hc, if_false, ih, Bool.false_eq_true]
  unfold HSB.evalLoop
  rw [hgo]
  simp

/-- Inserting then reading the comparator-driven list is a permutation. -/
theorem insertCmp_perm (x : Evaluation) (l : List Evaluation) :
    (HSB.insertCmp x l).Perm (x :: l) := by
  induction l with
  | nil => exact List.Perm.refl _
  | cons y ys ih =>
    unfold HSB.insertCmp
    split_ifs
    · exact List.Perm.refl _
    · exact (ih.cons y).trans (List.Perm.swap x y ys)

/-- The modelled sort permutes its input. -/
theorem sortEvals_perm (l : List Evaluation) : (HSB.sortEvals l).Perm l := by
  induction l with
  | nil => exact List.Perm.refl _
  | cons x xs ih => exact (insertCmp_perm x (HSB.sortEvals xs)).trans (ih.cons x)

/-- C7: when no registered rule matches the signature, chooseApproach
returns the sentinel "default", an empty matching collection and
confidence 0; being a total function of its inputs it cannot throw. -/
theorem C7_no_match_yields_default (configs : List ApproachConfig) (w : List Quad)
    (h : ∀ cfg ∈ configs, (HSB.evaluateApproach (SigX.extractSignature w) cfg).1 = false) :
    (HSB.chooseApproach configs w).recommendedApproach = "default" ∧
    (HSB.chooseApproach configs w).matchingApproaches = [] ∧
    (HSB.chooseApproach configs w).confidence = 0 := by
  have hfilter :
      configs.filter (fun c => (HSB.evaluateApproach (SigX.extractSignature w) c).1) = [] := by
    rw [List.filter_eq_nil_iff]
    intro c hc
    simp [h c hc]
  simp [HSB.chooseApproach, evalLoop_eq, hfilter, HSB.sortEvals]

/-- C7 witness: one rule demanding at least five triples, evaluated on
the empty window. -/
theorem C7_witness :
    (∀ cfg ∈ [exCfgMin5], (HSB.evaluateApproach (SigX.extractSignature []) cfg).1 = false) ∧
    (HSB.chooseApproach [exCfgMin5] []).recommendedApproach = "default" ∧
    (HSB.chooseApproach [exCfgMin5] []).matchingApproaches = [] ∧
    (HSB.chooseApproach [exCfgMin5] []).confidence = 0 := by
  have h : ∀ cfg ∈ [exCfgMin5],
      (HSB.evaluateApproach (SigX.extractSignature []) cfg).1 = false := by
    intro cfg hc
    rw [List.mem_singleton] at hc
    subst hc
    rw [extractSignature_nil]
    unfold HSB.evaluateApproach
    norm_num [exCfgMin5, HSB.checkList, HSB.minStep]
  exact ⟨h, C7_no_match_yields_default [exCfgMin5] [] h⟩

/-- A thresholds record declaring nothing leaves both evaluation loops
untouched. -/
theorem fold_steps_none (t : ApproachThresholds) (s : StreamSignature)
    (h : threshCount t = 0) (st : Bool × ℝ × ℕ) :
    (HSB.checkList t s).foldl HSB.minStep st = st ∧
    (HSB.checkList t s).foldl HSB.maxStep st = st := by
  obtain ⟨vO, sO, eO, fO, tO⟩ := t
  cases vO <;> cases sO <;> cases eO <;> cases fO <;> cases tO <;>
    simp_all [threshCount, HSB.checkList, HSB.minStep, HSB.maxStep]

/-- A rule declaring no thresholds matches every signature with score 0. -/
theorem evaluateApproach_no_thresholds (s : StreamSignature) (cfg : ApproachConfig)
    (h : declaredCount cfg = 0) :
    HSB.evaluateApproach s cfg = (true, 0) := by
  unfold HSB.evaluateApproach
  unfold declaredCount at h
  cases hmin : cfg.minThresholds with
  | none =>
    cases hmax : cfg.maxThresholds with
    | none =>
      simp only [hmin, hmax]
      norm_num
    | some tmax =>
      simp only [hmin, hmax] at h
      simp only [hmin, hmax, (fold_steps_none tmax s (by omega) _).2]
      norm_num
  | some tmin =>
    cases hmax : cfg.maxThresholds with
    | none =>
      simp only [hmin, hmax] at h
      simp only [hmin, hmax, (fold_steps_none tmin s (by omega) _).1]
      norm_num
    | some tmax =>
      simp only [hmin, hmax] at h
      simp only [hmin, hmax, (fold_steps_none tmin s (by omega) _).1,
        (fold_steps_none tmax s (by omega) _).2]
      norm_num

/-- The min loop keeps the accumulated score nonnegative. -/
theorem minFold_nonneg (checks : List (Option ℝ × ℝ)) :
    ∀ st : Bool × ℝ × ℕ, 0 ≤ st.2.1 → 0 ≤ (checks.foldl HSB.minStep st).2.1 := by
  induction checks with
  | nil => exact fun _ h => h
  | cons c cs ih =>
    intro st h
    rw [List.foldl_cons]
    apply ih
    rcases c with ⟨thr, v⟩
    cases thr with
    | none => exact h
    | some t =>
      simp only [HSB.minStep]
      split_ifs
      · show 0 ≤ st.2.1 + 1
        linarith
      · show 0 ≤ st.2.1 + max 0 (v / t)
        exact add_nonneg h (le_max_left 0 _)

/-- The max loop keeps the accumulated score nonnegative. -/
theorem maxFold_nonneg (checks : List (Option ℝ × ℝ)) :
    ∀ st : Bool × ℝ × ℕ, 0 ≤ st.2.1 → 0 ≤ (checks.foldl HSB.maxStep st).2.1 := by
  induction checks with
  | nil => exact fun _ h => h
  | cons c cs ih =>
    intro st h
    rw [List.foldl_cons]
    apply ih
    rcases c with ⟨thr, v⟩
    cases thr with
    | none => exact h
    | some t =>
      simp only [HSB.maxStep]
      split_ifs
      · show 0 ≤ st.2.1 + 1
        linarith
      · show 0 ≤ st.2.1 + max 0 (t / v)
        exact add_nonneg h (le_max_left 0 _)

/-- With nonnegative thresholds and values, each min-loop iteration adds
at most 1, so the score stays below the criteria count. -/
theorem minFold_le_count : ∀ checks : List (Option ℝ × ℝ),
    (∀ c ∈ checks, ∀ t, c.1 = some t → 0 ≤ t ∧ 0 ≤ c.2) →
    ∀ st : Bool × ℝ × ℕ, st.2.1 ≤ (st.2.2 : ℝ) →
      (checks.foldl HSB.minStep st).2.1 ≤ ((checks.foldl HSB.minStep st).2.2 : ℝ) := by
  intro checks
  induction checks with
  | nil => exact fun _ _ h => h
  | cons c cs ih =>
    intro hck st h
    rw [List.foldl_cons]
    apply ih (fun x hx => hck x (List.mem_cons_of_mem _ hx))
    rcases c with ⟨thr, v⟩
    cases thr with
    | none => exact h
    | some t =>
      obtain ⟨ht, hv⟩ := hck (some t, v) (List.mem_cons_self _ _) t rfl
      simp only [HSB.minStep]
      split_ifs with hge
      · show st.2.1 + 1 ≤ ((st.2.2 + 1 : ℕ) : ℝ)
        push_cast
        linarith
      · show st.2.1 + max 0 (v / t) ≤ ((st.2.2 + 1 : ℕ) : ℝ)
        push_cast
        have hlt : v < t := lt_of_not_ge hge
        have ht0 : 0 < t := lt_of_le_of_lt hv hlt
        have h1 : v / t ≤ 1 := (div_le_one ht0).mpr (le_of_lt hlt)
        have h2 : max 0 (v / t) ≤ 1 := max_le (by norm_num) h1
        linarith

/-- With nonnegative thresholds and values, each max-loop iteration adds
at most 1, so the score stays below the criteria count. -/
theorem maxFold_le_count : ∀ checks : List (Option ℝ × ℝ),
    (∀ c ∈ checks, ∀ t, c.1 = some t → 0 ≤ t ∧ 0 ≤ c.2) →
    ∀ st : Bool × ℝ × ℕ, st.2.1 ≤ (st.2.2 : ℝ) →
      (checks.foldl HSB.maxStep st).2.1 ≤ ((checks.foldl HSB.maxStep st).2.2 : ℝ) := by
  intro checks
  induction checks with
  | nil => exact fun _ _ h => h
  | cons c cs ih =>
    intro hck st h
    rw [List.foldl_cons]
    apply ih (fun x hx => hck x (List.mem_cons_of_mem _ hx))
    rcases c with ⟨thr, v⟩
    cases thr with
    | none => exact h
    | some t =>
      obtain ⟨ht, hv⟩ := hck (some t, v) (List.mem_cons_self _ _) t rfl
      simp only [HSB.maxStep]
      split_ifs with hge
      · show st.2.1 + 1 ≤ ((st.2.2 + 1 : ℕ) : ℝ)
        push_cast
        linarith
      · show st.2.1 + max 0 (t / v) ≤ ((st.2.2 + 1 : ℕ) : ℝ)
        push_cast
        have hlt : t < v := lt_of_not_ge hge
        have hv0 : 0 < v := lt_of_le_of_lt ht hlt
        have h1 : t / v ≤ 1 := (div_le_one hv0).mpr (le_of_lt hlt)
        have h2 : max 0 (t / v) ≤ 1 := max_le (by norm_num) h1
        linarith

/-- The five check pairs carry nonnegative thresholds and values when
the thresholds record and the signature do. -/
theorem checkList_nonneg (t : ApproachThresholds) (s : StreamSignature)
    (ht : ThreshNonneg t) (hs : SigNonneg s) :
    ∀ c ∈ HSB.checkList t s, ∀ x, c.1 = some x → 0 ≤ x ∧ 0 ≤ c.2 := by
  obtain ⟨hv, hsk, he, hf, htc⟩ := ht
  obtain ⟨sv, ssk, se, sf⟩ := hs
  intro c hc x hx
  simp only [HSB.checkList, List.mem_cons, List.not_mem_nil, or_false] at hc
  rcases hc with h | h | h | h | h <;> subst h <;> simp only at hx
  · exact ⟨hv x hx, sv⟩
  · exact ⟨hsk x hx, ssk⟩
  · exact ⟨he x hx, se⟩
  · exact ⟨hf x hx, sf⟩
  · exact ⟨htc x hx, Nat.cast_nonneg _⟩

/-- The score produced by evaluateApproach is never negative. -/
theorem evaluateApproach_score_nonneg (s : StreamSignature) (cfg : ApproachConfig) :
    0 ≤ (HSB.evaluateApproach s cfg).2 := by
  have key : ∀ st2 : Bool × ℝ × ℕ, 0 ≤ st2.2.1 →
      0 ≤ (if st2.2.2 > 0 then st2.2.1 / (st2.2.2 : ℝ) else 0) := by
    intro st2 h
    split_ifs
    · exact div_nonneg h (Nat.cast_nonneg _)
    · exact le_refl 0
  unfold HSB.evaluateApproach
  cases hmin : cfg.minThresholds with
  | none =>
    cases hmax : cfg.maxThresholds with
    | none =>
      simp only [hmin, hmax]
      norm_num
    | some tmax =>
      simp only [hmin, hmax]
      exact key _ (maxFold_nonneg _ _ (le_refl 0))
  | some tmin =>
    cases hmax : cfg.maxThresholds with
    | none =>
      simp only [hmin, hmax]
      exact key _ (minFold_nonneg _ _ (le_refl 0))
    | some tmax =>
      simp only [hmin, hmax]
      exact key _ (maxFold_nonneg _ _ (minFold_nonneg _ _ (le_refl 0)))

/-- With a nonnegative signature and nonnegative declared thresholds the
score of evaluateApproach is at most 1. -/
theorem evaluateApproach_score_le_one (s : StreamSignature) (cfg : ApproachConfig)
    (hs : SigNonneg s) (hc : CfgNonneg cfg) :
    (HSB.evaluateApproach s cfg).2 ≤ 1 := by
  have key : ∀ st2 : Bool × ℝ × ℕ, st2.2.1 ≤ (st2.2.2 : ℝ) →
      (if st2.2.2 > 0 then st2.2.1 / (st2.2.2 : ℝ) else 0) ≤ 1 := by
    intro st2 h
    split_ifs with hcnt
    · rw [div_le_one (by exact_mod_cast hcnt)]
      exact h
    · norm_num
  unfold HSB.evaluateApproach
  cases hmin : cfg.minThresholds with
  | none =>
    cases hmax : cfg.maxThresholds with
    | none =>
      simp only [hmin, hmax]
      norm_num
    | some tmax =>
      simp only [hmin, hmax]
      exact key _ (maxFold_le_count _ (checkList_nonneg tmax s (hc.2 tmax hmax) hs) _
        (by norm_num))
  | some tmin =>
    cases hmax : cfg.maxThresholds with
    | none =>
      simp only [hmin, hmax]
      exact key _ (minFold_le_count _ (checkList_nonneg tmin s (hc.1 tmin hmin) hs) _
        (by norm_num))
    | some tmax =>
      simp only [hmin, hmax]
      exact key _ (maxFold_le_count _ (checkList_nonneg tmax s (hc.2 tmax hmax) hs) _
        (minFold_le_count _ (checkList_nonneg tmin s (hc.1 tmin hmin) hs) _ (by norm_num)))

/-- Every evaluation record of the matching pass comes from a registered
configuration. -/
theorem mem_evalLoop_snd (signature : StreamSignature) (configs : List ApproachConfig)
    (ev : Evaluation) (h : ev ∈ (HSB.evalLoop signature configs).2) :
    ∃ cfg ∈ configs, ev = HSB.mkEval signature cfg := by
  rw [evalLoop_eq] at h
  rcases List.mem_map.mp h with ⟨cfg, hcfg, hev⟩
  exact ⟨cfg, (List.mem_filter.mp hcfg).1, hev.symm⟩

/-- The confidence of every recommendation lies in the unit interval. -/
theorem confidence_bounds (configs : List ApproachConfig) (w : List Quad) :
    0 ≤ (HSB.chooseApproach configs w).confidence ∧
    (HSB.chooseApproach configs w).confidence ≤ 1 := by
  cases hsort : HSB.sortEvals (HSB.evalLoop (SigX.extractSignature w) configs).2 with
  | nil =>
    simp only [HSB.chooseApproach, hsort]
    norm_num
  | cons top rest =>
    simp only [HSB.chooseApproach, hsort]
    have htop : top ∈ HSB.sortEvals (HSB.evalLoop (SigX.extractSignature w) configs).2 := by
      rw [hsort]
      exact List.mem_cons_self _ _
    have htop2 : top ∈ (HSB.evalLoop (SigX.extractSignature w) configs).2 :=
      (sortEvals_perm _).mem_iff.mp htop
    rcases mem_evalLoop_snd _ _ _ htop2 with ⟨cfg, _, hev⟩
    have hscore : 0 ≤ top.score := by
      rw [hev]
      exact evaluateApproach_score_nonneg _ _
    constructor
    · exact le_min hscore (by norm_num)
    · exact min_le_right _ _

/-- C4 counterexample: a violated min-threshold of -1 against a skewness
of -5 contributes (-5)/(-1) = 5, so the match score is 5, outside [0,1]. -/
theorem C4_counterexample : 1 < (HSB.evaluateApproach exSigNeg exCfgNeg).2 := by
  unfold HSB.evaluateApproach
  norm_num [exCfgNeg, exSigNeg, HSB.checkList, HSB.minStep]

/-- C4 amended: the match score is always nonnegative, and lies in [0,1]
whenever every declared threshold and every signature field involved is
nonnegative (a violated negative threshold can push it above 1); the
confidence of every recommendation is unconditionally in [0,1] thanks to
the final clamp. -/
theorem C4_score_confidence_bounds :
    (∀ (s : StreamSignature) (cfg : ApproachConfig), 0 ≤ (HSB.evaluateApproach s cfg).2) ∧
    (∀ (s : StreamSignature) (cfg : ApproachConfig), SigNonneg s → CfgNonneg cfg →
      (HSB.evaluateApproach s cfg).2 ≤ 1) ∧
    (∀ (configs : List ApproachConfig) (w : List Quad),
      0 ≤ (HSB.chooseApproach configs w).confidence ∧
      (HSB.chooseApproach configs w).confidence ≤ 1) :=
  ⟨evaluateApproach_score_nonneg, evaluateApproach_score_le_one, confidence_bounds⟩

/-- C4 witness: the bounds instantiated on the empty window and the
variance-bounded rule A. -/
theorem C4_witness :
    0 ≤ (HSB.evaluateApproach exSigNeg exCfgNeg).2 ∧
    (SigNonneg (SigX.extractSignature []) ∧ CfgNonneg exCfgA ∧
      (HSB.evaluateApproach (SigX.extractSignature []) exCfgA).2 ≤ 1) ∧
    (0 ≤ (HSB.chooseApproach [exCfgA] []).confidence ∧
      (HSB.chooseApproach [exCfgA] []).confidence ≤ 1) := by
  have hs : SigNonneg (SigX.extractSignature []) := by
    rw [extractSignature_nil]
    exact ⟨le_refl 0, le_refl 0, le_refl 0, le_refl 0⟩
  have hc : CfgNonneg exCfgA := by
    constructor
    · intro t ht
      simp [exCfgA] at ht
    · intro t ht
      simp only [exCfgA, Option.some_inj] at ht
      subst ht
      refine ⟨?_, ?_, ?_, ?_, ?_⟩ <;> intro x hx <;> simp_all
  exact ⟨C4_score_confidence_bounds.1 exSigNeg exCfgNeg,
    ⟨hs, hc, C4_score_confidence_bounds.2.1 _ _ hs hc⟩,
    C4_score_confidence_bounds.2.2 [exCfgA] []⟩

/-- The matching list of a recommendation is the name list of the
matching configurations, whatever the ranking does. -/
theorem chooseApproach_matching (configs : List ApproachConfig) (w : List Quad) :
    (HSB.chooseApproach configs w).matchingApproaches =
      (configs.filter fun c => (HSB.evaluateApproach (SigX.extractSignature w) c).1).map
        (fun c => c.name) := by
  cases hsort : HSB.sortEvals ((configs.filter fun c =>
      (HSB.evaluateApproach (SigX.extractSignature w) c).1).map
      (HSB.mkEval (SigX.extractSignature w))) with
  | nil => simp only [HSB.chooseApproach, evalLoop_eq, hsort]
  | cons top rest => simp only [HSB.chooseApproach, evalLoop_eq, hsort]

/-- C8: a rule declaring no thresholds matches every window (its name is
collected), its match score is 0 because the criteria count is 0, and if
it is the recommended approach the confidence is 0. -/
theorem C8_thresholdless_rule (configs : List ApproachConfig) (cfg : ApproachConfig)
    (w : List Quad) (hmem : cfg ∈ configs) (hdecl : declaredCount cfg = 0)
    (hnodup : (configs.map fun c => c.name).Nodup) :
    cfg.name ∈ (HSB.chooseApproach configs w).matchingApproaches ∧
    (HSB.evaluateApproach (SigX.extractSignature w) cfg).2 = 0 ∧
    ((HSB.chooseApproach configs w).recommendedApproach = cfg.name →
      (HSB.chooseApproach configs w).confidence = 0) := by
  have heval := evaluateApproach_no_thresholds (SigX.extractSignature w) cfg hdecl
  have hmatch : (HSB.evaluateApproach (SigX.extractSignature w) cfg).1 = true := by
    rw [heval]
  have hscore : (HSB.evaluateApproach (SigX.extractSignature w) cfg).2 = 0 := by
    rw [heval]
  refine ⟨?_, hscore, ?_⟩
  · rw [chooseApproach_matching]
    exact List.mem_map.mpr ⟨cfg, List.mem_filter.mpr ⟨hmem, hmatch⟩, rfl⟩
  · cases hsort : HSB.sortEvals ((configs.filter fun c =>
        (HSB.evaluateApproach (SigX.extractSignature w) c).1).map
        (HSB.mkEval (SigX.extractSignature w))) with
    | nil =>
      intro _
      simp only [HSB.chooseApproach, evalLoop_eq, hsort]
    | cons top rest =>
      intro hrec
      simp only [HSB.chooseApproach, evalLoop_eq, hsort] at hrec
      simp only [HSB.chooseApproach, evalLoop_eq, hsort]
      have htop : top ∈ (configs.filter fun c =>
          (HSB.evaluateApproach (SigX.extractSignature w) c).1).map
          (HSB.mkEval (SigX.extractSignature w)) := by
        refine (sortEvals_perm _).mem_iff.mp ?_
        rw [hsort]
        exact List.mem_cons_self _ _
      rcases List.mem_map.mp htop with ⟨c, hcfilter, hcev⟩
      have hcmem : c ∈ configs := (List.mem_filter.mp hcfilter).1
      have hcname : c.name = cfg.name := by
        have : top.name = c.name := by
          rw [← hcev]
          exact rfl
        rw [← this]
        exact hrec
      have hceq : c = cfg := List.inj_on_of_nodup_map hnodup hcmem hmem hcname
      have : top.score = 0 := by
        rw [← hcev, hceq]
        show (HSB.evaluateApproach (SigX.extractSignature w) cfg).2 = 0
        exact hscore
      rw [this]
      norm_num

/-- C8 witness: the single thresholdless rule on the empty window; it is
recommended and the confidence is 0. -/
theorem C8_witness :
    exCfgEmpty ∈ [exCfgEmpty] ∧ declaredCount exCfgEmpty = 0 ∧
    (([exCfgEmpty] : List ApproachConfig).map fun c => c.name).Nodup ∧
    exCfgEmpty.name ∈ (HSB.chooseApproach [exCfgEmpty] []).matchingApproaches ∧
    (HSB.evaluateApproach (SigX.extractSignature []) exCfgEmpty).2 = 0 ∧
    ((HSB.chooseApproach [exCfgEmpty] []).recommendedApproach = exCfgEmpty.name →
      (HSB.chooseApproach [exCfgEmpty] []).confidence = 0) := by
  have h1 : exCfgEmpty ∈ [exCfgEmpty] := List.mem_singleton.mpr rfl
  have h2 : declaredCount exCfgEmpty = 0 := rfl
  have h3 : (([exCfgEmpty] : List ApproachConfig).map fun c => c.name).Nodup := by
    simp
  obtain ⟨a, b, c⟩ := C8_thresholdless_rule [exCfgEmpty] exCfgEmpty [] h1 h2 h3
  exact ⟨h1, h2, h3, a, b, c⟩
